import Mathlib

/-!
Shallow embedding of the Frontstack collaborative-canvas server core:
`src/server/drawing-state.js` (DrawingState), `src/unnamed/part_002`
(RoomManager, i.e. `server/rooms.js`), and the socket event handlers of
`src/index.js`.  JS `Map`s are modelled as association lists with unique
keys and insertion order; `Map.set` updates in place when the key exists
and appends otherwise; `Map.delete` removes the entry.  `Date.now()` is
passed in as an explicit `now : Nat` parameter.  Client path ids are
modelled as `Nat`.
-/

/-- A drawing-operation payload as sent by a client over `draw-path`
(a JSON object).  The server reads only `id` (for undo lookup) and stores
the object verbatim.  `points` models a freehand point sequence, `shape`
a parametric shape descriptor with start/end coordinates, and `seq` the
spec's per-operation `sequence` attribute — the source never reads or
writes `seq`, so a client-supplied value (or its absence) is stored
unchanged. -/
structure PathData where
  id : Nat
  points : List (Int × Int)
  shape : Option (Int × Int × Int × Int)
  seq : Option Nat
deriving Repr, DecidableEq

/-- Per-room drawing state, from `DrawingState`'s
`roomId -> { paths: [], lastUpdate }` map values. -/
structure RoomState where
  paths : List PathData
  lastUpdate : Nat
deriving Repr, DecidableEq

/-- JS `Map.get`, on an association list. -/
def getA {α : Type} (m : List (String × α)) (k : String) : Option α :=
  (m.find? (fun e => e.1 == k)).map Prod.snd

/-- JS `Map.has`. -/
def hasA {α : Type} (m : List (String × α)) (k : String) : Bool :=
  m.any (fun e => e.1 == k)

/-- JS `Map.set`: update in place when the key exists, append otherwise. -/
def setA {α : Type} (m : List (String × α)) (k : String) (v : α) :
    List (String × α) :=
  if hasA m k then m.map (fun e => if e.1 == k then (k, v) else e)
  else m ++ [(k, v)]

/-- JS `Map.delete`. -/
def delA {α : Type} (m : List (String × α)) (k : String) : List (String × α) :=
  m.filter (fun e => e.1 != k)

/-- The `DrawingState.roomStates` map. -/
abbrev DrawingState := List (String × RoomState)

/-- `DrawingState.getRoomState(roomId)`: lazily creates an empty room state
for an unknown room, then returns the (possibly extended) map together with
the room's state. -/
def getRoomState (ds : DrawingState) (roomId : String) (now : Nat) :
    DrawingState × RoomState :=
  match getA ds roomId with
  | some st => (ds, st)
  | none =>
      let st : RoomState := ⟨[], now⟩
      (setA ds roomId st, st)

/-- `DrawingState.addPathToRoom(roomId, pathData)`: push the path, stamp
`lastUpdate`, and `shift()` the oldest path when the length exceeds 1000. -/
def addPathToRoom (ds : DrawingState) (roomId : String) (pathData : PathData)
    (now : Nat) : DrawingState :=
  let s := getRoomState ds roomId now
  let paths1 := s.2.paths ++ [pathData]
  let paths2 := if paths1.length > 1000 then paths1.drop 1 else paths1
  setA s.1 roomId ⟨paths2, now⟩

/-- `DrawingState.removePathFromRoom(roomId, pathId)`: `findIndex` the first
path whose `id` matches, and `splice` it out when found. -/
def removePathFromRoom (ds : DrawingState) (roomId : String) (pathId : Nat)
    (now : Nat) : DrawingState :=
  let s := getRoomState ds roomId now
  match s.2.paths.findIdx? (fun p => p.id == pathId) with
  | some i => setA s.1 roomId ⟨s.2.paths.take i ++ s.2.paths.drop (i + 1), now⟩
  | none => s.1

/-- `DrawingState.clearRoom(roomId)`. -/
def clearRoom (ds : DrawingState) (roomId : String) (now : Nat) : DrawingState :=
  let s := getRoomState ds roomId now
  setA s.1 roomId ⟨[], now⟩

/-- `DrawingState.getPath(roomId, pathId)`: `find` by id, `null` when absent. -/
def getPath (ds : DrawingState) (roomId : String) (pathId : Nat) (now : Nat) :
    DrawingState × Option PathData :=
  let s := getRoomState ds roomId now
  (s.1, s.2.paths.find? (fun p => p.id == pathId))

/-- The path list a room presents: what `initial-state` sends to a joiner
(`roomState.paths`); an unknown room presents `[]`. -/
def roomPaths (ds : DrawingState) (roomId : String) : List PathData :=
  ((getA ds roomId).map RoomState.paths).getD []

example : roomPaths (addPathToRoom [] "r" ⟨1, [], none, none⟩ 0) "r"
    = [⟨1, [], none, none⟩] := by decide

example : roomPaths (removePathFromRoom
    (addPathToRoom [] "r" ⟨1, [], none, none⟩ 0) "r" 1 1) "r" = [] := by decide

/-- A user record built by `RoomManager.addUserToRoom` (the field
renderName embeds the source's display-name field, `User ${userId.substring(0,4)}`;
Lean reserves shorter spellings). -/
structure User where
  uid : String
  color : String
  renderName : String
  joinedAt : Nat
deriving Repr, DecidableEq

/-- The fixed 10-entry palette of `RoomManager.generateRandomColor`. -/
def palette : List String :=
  ["#FF6B6B", "#4ECDC4", "#45B7D1", "#96CEB4", "#FFEAA7",
   "#DDA0DD", "#98D8C8", "#F7DC6F", "#BB8FCE", "#85C1E9"]

/-- `RoomManager.generateRandomColor`: `colors[floor(random * 10)]`, with the
random draw modelled as an oracle value `rand` reduced mod 10. -/
def generateRandomColor (rand : Nat) : String :=
  palette.getD (rand % palette.length) ""

/-- Members of one room: the `userId -> user data` inner map. -/
abbrev Members := List (String × User)

/-- The `RoomManager.rooms` map: `roomId -> Map of userId -> user data`. -/
abbrev RoomMgr := List (String × Members)

/-- `RoomManager.addUserToRoom(userId, roomId)`: create the room when absent,
build a fresh user record (fresh random color, recomputed display name and
`joinedAt`), store it under `userId` (overwriting any previous entry), and
return it. -/
def addUserToRoom (m : RoomMgr) (userId roomId : String) (rand now : Nat) :
    RoomMgr × User :=
  let m1 := if hasA m roomId then m else setA m roomId []
  let user : User :=
    ⟨userId, generateRandomColor rand, "User " ++ userId.take 4, now⟩
  let members := (getA m1 roomId).getD []
  (setA m1 roomId (setA members userId user), user)

/-- `RoomManager.removeUserFromRoom(userId, roomId)`: delete the member and
drop the room entirely when its member map becomes empty. -/
def removeUserFromRoom (m : RoomMgr) (userId roomId : String) : RoomMgr :=
  match getA m roomId with
  | none => m
  | some members =>
      let members1 := delA members userId
      if members1.isEmpty then delA m roomId else setA m roomId members1

/-- `RoomManager.removeUser(userId)`: delete the member from every room,
dropping each room whose member map becomes empty. -/
def removeUser (m : RoomMgr) (userId : String) : RoomMgr :=
  (m.map (fun e => (e.1, delA e.2 userId))).filter (fun e => !e.2.isEmpty)

/-- `RoomManager.getUsersInRoom(roomId)`: the member mapping, empty when the
room is unknown. -/
def getUsersInRoom (m : RoomMgr) (roomId : String) : Members :=
  (getA m roomId).getD []

/-- `RoomManager.getAllRooms()`. -/
def getAllRooms (m : RoomMgr) : List String :=
  m.map Prod.fst

/-- A connected socket: its id and the socket.io room set it is in (which
always contains its own id as a private room). -/
structure Socket where
  sid : String
  rooms : List String
deriving Repr, DecidableEq

/-- `socket.to(roomId).emit(...)`: the delivery targets are every socket that
is a member of `roomId` other than the sender. -/
def emitToRoom (sockets : List Socket) (senderSid roomId : String) :
    List String :=
  (sockets.filter (fun s => s.sid != senderSid && s.rooms.contains roomId)).map
    Socket.sid

/-- The `socket.on('draw-path')` handler of `src/index.js`: for every room in
`socket.rooms` other than the socket's own id room, broadcast `pathData`
verbatim via `socket.to(roomId)` and call `drawingState.addPathToRoom`.
No validation of the payload is performed.  Returns the updated drawing
state and the concatenated list of broadcast recipients. -/
def handleDrawPath (sockets : List Socket) (sender : Socket)
    (ds : DrawingState) (pathData : PathData) (now : Nat) :
    DrawingState × List String :=
  sender.rooms.foldl
    (fun acc roomId =>
      if roomId != sender.sid then
        (addPathToRoom acc.1 roomId pathData now,
         acc.2 ++ emitToRoom sockets sender.sid roomId)
      else acc)
    (ds, [])

/-- The `socket.on('undo-path')` handler: broadcast `path-undone` and call
`drawingState.removePathFromRoom` for every joined room. -/
def handleUndoPath (sockets : List Socket) (sender : Socket)
    (ds : DrawingState) (pathId : Nat) (now : Nat) :
    DrawingState × List String :=
  sender.rooms.foldl
    (fun acc roomId =>
      if roomId != sender.sid then
        (removePathFromRoom acc.1 roomId pathId now,
         acc.2 ++ emitToRoom sockets sender.sid roomId)
      else acc)
    (ds, [])

/-- The `socket.on('redo-path')` handler: it only broadcasts `path-redone`
("For simplicity, we'll just notify other users") — the drawing state is not
touched. -/
def handleRedoPath (sockets : List Socket) (sender : Socket)
    (ds : DrawingState) : DrawingState × List String :=
  sender.rooms.foldl
    (fun acc roomId =>
      if roomId != sender.sid then
        (acc.1, acc.2 ++ emitToRoom sockets sender.sid roomId)
      else acc)
    (ds, [])

/-- The `socket.on('cursor-move')` handler: broadcast the cursor payload
(with the sender's id attached) to every joined room; no state change. -/
def handleCursorMove (sockets : List Socket) (sender : Socket) :
    List String :=
  sender.rooms.foldl
    (fun acc roomId =>
      if roomId != sender.sid then acc ++ emitToRoom sockets sender.sid roomId
      else acc)
    []

/-- A session as the `join-room` handler leaves it: the socket has left every
previous room, so its socket.io room set is exactly its own id room plus the
one joined room. -/
structure Session where
  sid : String
  currentRoom : String
deriving Repr, DecidableEq

/-- The socket of a session in the post-`join-room` shape. -/
def socketOfSession (t : Session) : Socket :=
  ⟨t.sid, [t.sid, t.currentRoom]⟩

theorem getA_cons_of_pos {α : Type} (e : String × α) (m : List (String × α))
    {k : String} (h : e.1 = k) : getA (e :: m) k = some e.2 := by
  have hb : ((fun x : String × α => x.1 == k) e) = true := by
    simp [h]
  unfold getA
  rw [@List.find?_cons_of_pos (String × α) (fun x => x.1 == k) e m hb]
  rfl

theorem getA_cons_of_neg {α : Type} (e : String × α) (m : List (String × α))
    {k : String} (h : e.1 ≠ k) : getA (e :: m) k = getA m k := by
  have hb : ¬ ((fun x : String × α => x.1 == k) e) = true := by
    simp [h]
  unfold getA
  rw [@List.find?_cons_of_neg (String × α) (fun x => x.1 == k) e m hb]

theorem getA_eq_none {α : Type} {m : List (String × α)} {k : String}
    (h : ∀ e ∈ m, e.1 ≠ k) : getA m k = none := by
  induction m with
  | nil => rfl
  | cons e m ih =>
      rw [getA_cons_of_neg e m (h e (List.mem_cons_self e m))]
      exact ih fun e' he' => h e' (List.mem_cons_of_mem _ he')

theorem hasA_false_forall {α : Type} {m : List (String × α)} {k : String}
    (h : hasA m k = false) : ∀ e ∈ m, e.1 ≠ k := by
  intro e he hc
  have hne : m.any (fun e => e.1 == k) ≠ true := by
    rw [show m.any (fun e => e.1 == k) = hasA m k from rfl, h]
    exact Bool.false_ne_true
  exact hne (List.any_eq_true.mpr ⟨e, he, by simp [hc]⟩)

theorem hasA_true_of_getA {α : Type} {m : List (String × α)} {k : String}
    {v : α} (h : getA m k = some v) : hasA m k = true := by
  by_contra hc
  have h' : hasA m k = false := by revert hc; cases hasA m k <;> simp
  rw [getA_eq_none (hasA_false_forall h')] at h
  exact Option.noConfusion h

theorem getA_append_right {α : Type} {m : List (String × α)} {k : String}
    (l : List (String × α)) (h : getA m k = none) :
    getA (m ++ l) k = getA l k := by
  induction m with
  | nil => rfl
  | cons e m ih =>
      by_cases he : e.1 = k
      · rw [getA_cons_of_pos e m he] at h
        exact Option.noConfusion h
      · rw [getA_cons_of_neg e m he] at h
        rw [List.cons_append, getA_cons_of_neg e (m ++ l) he]
        exact ih h

theorem getA_append_left {α : Type} {m : List (String × α)} {k : String}
    {w : α} (l : List (String × α)) (h : getA m k = some w) :
    getA (m ++ l) k = some w := by
  induction m with
  | nil => exact Option.noConfusion h
  | cons e m ih =>
      by_cases he : e.1 = k
      · rw [getA_cons_of_pos e m he] at h
        rw [List.cons_append, getA_cons_of_pos e (m ++ l) he]
        exact h
      · rw [getA_cons_of_neg e m he] at h
        rw [List.cons_append, getA_cons_of_neg e (m ++ l) he]
        exact ih h

theorem getA_map_replace_same {α : Type} {m : List (String × α)}
    {k : String} (v : α) (h : hasA m k = true) :
    getA (m.map fun e => if e.1 == k then (k, v) else e) k = some v := by
  induction m with
  | nil => simp [hasA] at h
  | cons e m ih =>
      simp only [List.map_cons]
      by_cases he : e.1 = k
      · rw [show (if e.1 == k then (k, v) else e) = (k, v) by simp [he]]
        exact getA_cons_of_pos (k, v) _ rfl
      · rw [show (if e.1 == k then (k, v) else e) = e by simp [he]]
        rw [getA_cons_of_neg e _ he]
        have hm : hasA m k = true := by
          simp only [hasA, List.any_cons] at h
          rcases Bool.or_eq_true_iff.mp h with h1 | h1
          · exact absurd (eq_of_beq h1) he
          · exact h1
        exact ih hm

theorem getA_map_replace_ne {α : Type} (m : List (String × α))
    {k k' : String} (v : α) (h : k' ≠ k) :
    getA (m.map fun e => if e.1 == k then (k, v) else e) k' = getA m k' := by
  induction m with
  | nil => rfl
  | cons e m ih =>
      simp only [List.map_cons]
      by_cases hek : e.1 = k
      · rw [show (if e.1 == k then (k, v) else e) = (k, v) by simp [hek]]
        rw [getA_cons_of_neg (k, v) _ (Ne.symm h)]
        rw [getA_cons_of_neg e m (by rw [hek]; exact Ne.symm h)]
        exact ih
      · rw [show (if e.1 == k then (k, v) else e) = e by simp [hek]]
        by_cases he' : e.1 = k'
        · rw [getA_cons_of_pos e _ he', getA_cons_of_pos e m he']
        · rw [getA_cons_of_neg e _ he', getA_cons_of_neg e m he']
          exact ih

theorem getA_setA_same {α : Type} (m : List (String × α)) (k : String)
    (v : α) : getA (setA m k v) k = some v := by
  by_cases h : hasA m k = true
  · simp only [setA, h, if_pos]
    exact getA_map_replace_same v h
  · have h' : hasA m k = false := by revert h; cases hasA m k <;> simp
    simp only [setA, h']
    rw [if_neg (by simp), getA_append_right _ (getA_eq_none (hasA_false_forall h'))]
    exact getA_cons_of_pos (k, v) [] rfl

theorem length_setA_of_hasA {α : Type} {m : List (String × α)} {k : String}
    (v : α) (h : hasA m k = true) : (setA m k v).length = m.length := by
  simp [setA, h]

theorem keys_setA_of_hasA {α : Type} {m : List (String × α)} {k : String}
    (v : α) (h : hasA m k = true) :
    (setA m k v).map Prod.fst = m.map Prod.fst := by
  simp only [setA, h, if_pos, List.map_map]
  refine List.map_congr_left ?_
  intro e _
  by_cases hek : e.1 = k
  · simp [hek]
  · simp [hek]

theorem mem_setA {α : Type} {m : List (String × α)} {k : String} {v : α}
    {e : String × α} (h : e ∈ setA m k v) :
    e = (k, v) ∨ (e ∈ m ∧ e.1 ≠ k) := by
  by_cases hh : hasA m k = true
  · simp only [setA, hh, if_pos] at h
    rcases List.mem_map.mp h with ⟨e', he', heq⟩
    by_cases hek : e'.1 = k
    · left
      rw [← heq]
      simp [hek]
    · right
      rw [← heq, show (if e'.1 == k then (k, v) else e') = e' by simp [hek]]
      exact ⟨he', hek⟩
  · have h' : hasA m k = false := by revert hh; cases hasA m k <;> simp
    simp only [setA, h'] at h
    rw [if_neg (by simp)] at h
    rcases List.mem_append.mp h with h1 | h1
    · exact Or.inr ⟨h1, hasA_false_forall h' _ h1⟩
    · exact Or.inl (List.mem_singleton.mp h1)

theorem setA_ne_nil {α : Type} (m : List (String × α)) (k : String) (v : α) :
    setA m k v ≠ [] := by
  by_cases hh : hasA m k = true
  · simp only [setA, hh, if_pos]
    intro hc
    have : m = [] := List.map_eq_nil_iff.mp hc
    rw [this] at hh
    simp [hasA] at hh
  · have h' : hasA m k = false := by revert hh; cases hasA m k <;> simp
    simp only [setA, h']
    rw [if_neg (by simp)]
    simp

theorem findIdx?_first {α : Type} (p : α → Bool) (pre post : List α) (x : α)
    (hpre : ∀ a ∈ pre, p a = false) (hx : p x = true) :
    (pre ++ x :: post).findIdx? p = some pre.length := by
  induction pre with
  | nil => simp [hx]
  | cons a pre ih =>
      have ha : p a = false := hpre a (List.mem_cons_self a pre)
      simp [ha, List.findIdx?_succ,
        ih fun b hb => hpre b (List.mem_cons_of_mem _ hb)]

theorem findIdx?_none {α : Type} (p : α → Bool) (l : List α)
    (h : ∀ a ∈ l, p a = false) : l.findIdx? p = none := by
  induction l with
  | nil => rfl
  | cons a l ih =>
      simp [h a (List.mem_cons_self a l), List.findIdx?_succ,
        ih fun b hb => h b (List.mem_cons_of_mem _ hb)]

theorem getA_setA_ne {α : Type} (m : List (String × α)) {k k' : String}
    (v : α) (h : k' ≠ k) : getA (setA m k v) k' = getA m k' := by
  by_cases hh : hasA m k = true
  · simp only [setA, hh, if_pos]
    exact getA_map_replace_ne m v h
  · have h' : hasA m k = false := by revert hh; cases hasA m k <;> simp
    simp only [setA, h']
    rw [if_neg (by simp)]
    cases hg : getA m k' with
    | some w => exact getA_append_left _ hg
    | none =>
        rw [getA_append_right _ hg, getA_cons_of_neg (k, v) [] (Ne.symm h)]
        rfl


theorem getA_addPathToRoom_same (ds : DrawingState) (r : String)
    (p : PathData) (now : Nat) :
    getA (addPathToRoom ds r p now) r =
      some ⟨if (roomPaths ds r ++ [p]).length > 1000
            then (roomPaths ds r ++ [p]).drop 1
            else roomPaths ds r ++ [p], now⟩ := by
  unfold addPathToRoom getRoomState
  cases hg : getA ds r with
  | some st =>
      simp only [hg]
      rw [getA_setA_same]
      simp [roomPaths, hg]
  | none =>
      simp only [hg]
      rw [getA_setA_same]
      simp [roomPaths, hg]

theorem getA_addPathToRoom_ne (ds : DrawingState) {r r' : String}
    (p : PathData) (now : Nat) (h : r' ≠ r) :
    getA (addPathToRoom ds r p now) r' = getA ds r' := by
  unfold addPathToRoom getRoomState
  cases hg : getA ds r with
  | some st =>
      simp only [hg]
      rw [getA_setA_ne _ _ h]
  | none =>
      simp only [hg]
      rw [getA_setA_ne _ _ h, getA_setA_ne _ _ h]

theorem removePathFromRoom_found (ds : DrawingState) (r : String)
    {st : RoomState} (x : PathData) (pre post : List PathData)
    (pathId now : Nat) (hg : getA ds r = some st)
    (hsplit : st.paths = pre ++ x :: post)
    (hpre : ∀ a ∈ pre, a.id ≠ pathId) (hx : x.id = pathId) :
    getA (removePathFromRoom ds r pathId now) r = some ⟨pre ++ post, now⟩ := by
  unfold removePathFromRoom getRoomState
  simp only [hg]
  rw [hsplit, findIdx?_first _ pre post x
    (fun a ha => by simp [hpre a ha]) (by simp [hx])]
  show getA (setA ds r ⟨List.take pre.length (pre ++ x :: post)
      ++ List.drop (pre.length + 1) (pre ++ x :: post), now⟩) r
    = some ⟨pre ++ post, now⟩
  rw [List.take_left' rfl, List.append_cons,
    List.drop_left' (by simp), getA_setA_same]

theorem removePathFromRoom_notFound (ds : DrawingState) (r : String)
    {st : RoomState} (pathId now : Nat) (hg : getA ds r = some st)
    (h : ∀ a ∈ st.paths, a.id ≠ pathId) :
    removePathFromRoom ds r pathId now = ds := by
  unfold removePathFromRoom getRoomState
  simp only [hg]
  rw [findIdx?_none _ _ (fun a ha => by simp [h a ha])]

theorem getA_removePathFromRoom_ne (ds : DrawingState) {r r' : String}
    (pathId now : Nat) (h : r' ≠ r) :
    getA (removePathFromRoom ds r pathId now) r' = getA ds r' := by
  unfold removePathFromRoom getRoomState
  cases hg : getA ds r with
  | some st =>
      simp only [hg]
      cases hfi : st.paths.findIdx? (fun p => p.id == pathId) with
      | some i =>
          simp only [hfi]
          rw [getA_setA_ne _ _ h]
      | none => simp only [hfi]
  | none =>
      simp only [hg]
      rw [show (([] : List PathData).findIdx? (fun p => p.id == pathId))
          = none from rfl]
      rw [getA_setA_ne _ _ h]

theorem handleRedoPath_fst (sockets : List Socket) (sender : Socket)
    (ds : DrawingState) : (handleRedoPath sockets sender ds).1 = ds := by
  unfold handleRedoPath
  suffices h : ∀ (rooms : List String) (acc : DrawingState × List String),
      (rooms.foldl (fun acc roomId => if roomId != sender.sid
        then (acc.1, acc.2 ++ emitToRoom sockets sender.sid roomId)
        else acc) acc).1 = acc.1 by
    exact h sender.rooms (ds, [])
  intro rooms
  induction rooms with
  | nil => intro acc; rfl
  | cons r rooms ih =>
      intro acc
      simp only [List.foldl_cons]
      by_cases hr : (r != sender.sid) = true
      · rw [if_pos hr]
        exact ih _
      · rw [if_neg hr]
        exact ih _

theorem emitToRoom_sessions (sessions : List Session) (senderSid cur : String)
    (h : ∀ t ∈ sessions, t.sid ≠ cur) :
    emitToRoom (sessions.map socketOfSession) senderSid cur =
      (sessions.filter
        (fun t => t.sid != senderSid && cur == t.currentRoom)).map
        Session.sid := by
  induction sessions with
  | nil => rfl
  | cons t ts ih =>
      have hts : ∀ u ∈ ts, u.sid ≠ cur :=
        fun u hu => h u (List.mem_cons_of_mem _ hu)
      have hne : cur ≠ t.sid := Ne.symm (h t (List.mem_cons_self t ts))
      have hcontains : ((socketOfSession t).rooms.contains cur)
          = (cur == t.currentRoom) := by
        simp [socketOfSession, hne, Bool.beq_eq_decide_eq]
      simp only [List.map_cons, emitToRoom, List.filter_cons] at ih ⊢
      cases hp : ((socketOfSession t).sid != senderSid
          && (socketOfSession t).rooms.contains cur) with
      | true =>
          have hp' : (t.sid != senderSid && (cur == t.currentRoom)) = true := by
            rw [← hcontains]
            exact hp
          rw [if_pos rfl, if_pos hp']
          simp only [List.map_cons]
          rw [ih hts]
          rfl
      | false =>
          have hp' : (t.sid != senderSid && (cur == t.currentRoom)) = false := by
            rw [← hcontains]
            exact hp
          rw [if_neg (by simp), if_neg (by simp [hp'])]
          exact ih hts

theorem handleDrawPath_session (sockets : List Socket) (sender : Session)
    (ds : DrawingState) (p : PathData) (now : Nat)
    (h : sender.currentRoom ≠ sender.sid) :
    handleDrawPath sockets (socketOfSession sender) ds p now
      = (addPathToRoom ds sender.currentRoom p now,
         emitToRoom sockets sender.sid sender.currentRoom) := by
  unfold handleDrawPath socketOfSession
  simp [h]

theorem handleUndoPath_session (sockets : List Socket) (sender : Session)
    (ds : DrawingState) (pathId now : Nat)
    (h : sender.currentRoom ≠ sender.sid) :
    handleUndoPath sockets (socketOfSession sender) ds pathId now
      = (removePathFromRoom ds sender.currentRoom pathId now,
         emitToRoom sockets sender.sid sender.currentRoom) := by
  unfold handleUndoPath socketOfSession
  simp [h]

theorem handleRedoPath_session (sockets : List Socket) (sender : Session)
    (ds : DrawingState) (h : sender.currentRoom ≠ sender.sid) :
    handleRedoPath sockets (socketOfSession sender) ds
      = (ds, emitToRoom sockets sender.sid sender.currentRoom) := by
  unfold handleRedoPath socketOfSession
  simp [h]

theorem handleCursorMove_session (sockets : List Socket) (sender : Session)
    (h : sender.currentRoom ≠ sender.sid) :
    handleCursorMove sockets (socketOfSession sender)
      = emitToRoom sockets sender.sid sender.currentRoom := by
  unfold handleCursorMove socketOfSession
  simp [h]

theorem getA_mem {α : Type} {m : List (String × α)} {k : String} {v : α}
    (h : getA m k = some v) : ∃ e ∈ m, e.2 = v := by
  unfold getA at h
  cases hf : m.find? (fun e => e.1 == k) with
  | none =>
      rw [hf] at h
      exact Option.noConfusion h
  | some e =>
      rw [hf] at h
      refine ⟨e, List.mem_of_find?_eq_some hf, ?_⟩
      injection h

/-- One inbound mutation of the drawing state, as the relay invokes it:
`draw-path` calls `addPathToRoom`, `undo-path` calls `removePathFromRoom`,
`clear-canvas` calls `clearRoom` (`redo-path` performs none). -/
inductive DSOp where
  | add (roomId : String) (p : PathData) (now : Nat)
  | remove (roomId : String) (pathId : Nat) (now : Nat)
  | clear (roomId : String) (now : Nat)
deriving Repr

/-- Apply one mutation. -/
def applyDSOp (ds : DrawingState) : DSOp → DrawingState
  | .add r p now => addPathToRoom ds r p now
  | .remove r i now => removePathFromRoom ds r i now
  | .clear r now => clearRoom ds r now

/-- A reachable drawing state: the result of a mutation history applied to
the fresh state of the `DrawingState` constructor. -/
def runDS (ops : List DSOp) : DrawingState :=
  ops.foldl applyDSOp []

/-- Cap invariant of one state: no room log exceeds 1000 paths. -/
def capInv (ds : DrawingState) : Prop :=
  ∀ e ∈ ds, e.2.paths.length ≤ 1000

theorem capInv_setA {ds : DrawingState} {r : String} {st : RoomState}
    (h : capInv ds) (hst : st.paths.length ≤ 1000) : capInv (setA ds r st) := by
  intro e he
  rcases mem_setA he with h1 | ⟨h1, _⟩
  · rw [h1]
    exact hst
  · exact h e h1

theorem capInv_getRoomState {ds : DrawingState} {r : String} {now : Nat}
    (h : capInv ds) :
    capInv (getRoomState ds r now).1
      ∧ (getRoomState ds r now).2.paths.length ≤ 1000 := by
  unfold getRoomState
  cases hg : getA ds r with
  | some st =>
      simp only [hg]
      refine ⟨h, ?_⟩
      rcases getA_mem hg with ⟨e, he, hev⟩
      rw [← hev]
      exact h e he
  | none =>
      simp only [hg]
      exact ⟨capInv_setA h (by simp), by simp⟩

theorem capInv_applyDSOp {ds : DrawingState} (h : capInv ds) (op : DSOp) :
    capInv (applyDSOp ds op) := by
  cases op with
  | add r p now =>
      have h1 := (@capInv_getRoomState ds r now h).1
      have h2 := (@capInv_getRoomState ds r now h).2
      show capInv (addPathToRoom ds r p now)
      unfold addPathToRoom
      apply capInv_setA h1
      show (if ((getRoomState ds r now).2.paths ++ [p]).length > 1000
          then ((getRoomState ds r now).2.paths ++ [p]).drop 1
          else (getRoomState ds r now).2.paths ++ [p]).length ≤ 1000
      by_cases hc : ((getRoomState ds r now).2.paths ++ [p]).length > 1000
      · rw [if_pos hc]
        simp only [List.length_drop, List.length_append, List.length_cons,
          List.length_nil]
        omega
      · rw [if_neg hc]
        simp only [List.length_append, List.length_cons, List.length_nil]
          at hc ⊢
        omega
  | remove r i now =>
      have h1 := (@capInv_getRoomState ds r now h).1
      have h2 := (@capInv_getRoomState ds r now h).2
      show capInv (removePathFromRoom ds r i now)
      unfold removePathFromRoom
      cases hfi : (getRoomState ds r now).2.paths.findIdx?
          (fun p => p.id == i) with
      | some j =>
          simp only [hfi]
          apply capInv_setA h1
          simp only [List.length_append, List.length_take, List.length_drop]
          omega
      | none =>
          simp only [hfi]
          exact h1
  | clear r now =>
      have h1 := (@capInv_getRoomState ds r now h).1
      show capInv (clearRoom ds r now)
      unfold clearRoom
      exact capInv_setA h1 (by simp)

theorem capInv_runDS (ops : List DSOp) : capInv (runDS ops) := by
  unfold runDS
  suffices hgen : ∀ (l : List DSOp) (ds : DrawingState), capInv ds →
      capInv (l.foldl applyDSOp ds) by
    exact hgen ops [] (by intro e he; cases he)
  intro l
  induction l with
  | nil =>
      intro ds h
      exact h
  | cons op l ih =>
      intro ds h
      exact ih _ (capInv_applyDSOp h op)

/-- Appending a batch of operations in order: iterated `addPathToRoom`. -/
def appendAll (ds : DrawingState) (roomId : String) (ops : List PathData)
    (now : Nat) : DrawingState :=
  ops.foldl (fun d p => addPathToRoom d roomId p now) ds

theorem roomPaths_addPathToRoom (ds : DrawingState) (r : String)
    (p : PathData) (now : Nat) (h : (roomPaths ds r).length < 1000) :
    roomPaths (addPathToRoom ds r p now) r = roomPaths ds r ++ [p] := by
  have hmain := getA_addPathToRoom_same ds r p now
  rw [if_neg (by
    simp only [List.length_append, List.length_cons, List.length_nil]
    omega)] at hmain
  simp [roomPaths, hmain]

theorem roomPaths_appendAll (ops : List PathData) (ds : DrawingState)
    (r : String) (now : Nat)
    (h : (roomPaths ds r).length + ops.length ≤ 1000) :
    roomPaths (appendAll ds r ops now) r = roomPaths ds r ++ ops := by
  induction ops generalizing ds with
  | nil => simp [appendAll]
  | cons p ops ih =>
      unfold appendAll
      simp only [List.foldl_cons]
      have hlt : (roomPaths ds r).length < 1000 := by
        simp only [List.length_cons] at h
        omega
      have hstep := roomPaths_addPathToRoom ds r p now hlt
      have hlen2 : (roomPaths (addPathToRoom ds r p now) r).length
          + ops.length ≤ 1000 := by
        rw [hstep]
        simp only [List.length_append, List.length_cons, List.length_nil]
          at h ⊢
        omega
      have happly := ih (addPathToRoom ds r p now) hlen2
      unfold appendAll at happly
      rw [happly, hstep, List.append_assoc]
      rfl

theorem hasA_getA {α : Type} {m : List (String × α)} {k : String}
    (h : hasA m k = true) : ∃ v, getA m k = some v := by
  induction m with
  | nil => simp [hasA] at h
  | cons e m ih =>
      by_cases he : e.1 = k
      · exact ⟨e.2, getA_cons_of_pos e m he⟩
      · rw [getA_cons_of_neg e m he]
        apply ih
        simp only [hasA, List.any_cons] at h
        rcases Bool.or_eq_true_iff.mp h with h1 | h1
        · exact absurd (eq_of_beq h1) he
        · exact h1

/-- Registry invariant: every room entry of the `RoomManager.rooms` map has a
non-empty member map. -/
def roomsInv (m : RoomMgr) : Prop := ∀ e ∈ m, e.2 ≠ []

theorem roomsInv_addUserToRoom {m : RoomMgr} (h : roomsInv m)
    (userId roomId : String) (rand now : Nat) :
    roomsInv (addUserToRoom m userId roomId rand now).1 := by
  intro e he
  by_cases hr : hasA m roomId = true
  · simp only [addUserToRoom, hr, if_pos] at he
    rcases mem_setA he with h1 | ⟨h1, _⟩
    · rw [h1]
      exact setA_ne_nil _ _ _
    · exact h e h1
  · have hr' : hasA m roomId = false := by
      revert hr
      cases hasA m roomId <;> simp
    simp only [addUserToRoom, hr'] at he
    rw [if_neg (by simp)] at he
    rcases mem_setA he with h1 | ⟨h1, hk⟩
    · rw [h1]
      exact setA_ne_nil _ _ _
    · rcases mem_setA h1 with h2 | ⟨h2, _⟩
      · exact absurd (by rw [h2]) hk
      · exact h e h2

theorem roomsInv_removeUserFromRoom {m : RoomMgr} (h : roomsInv m)
    (userId roomId : String) :
    roomsInv (removeUserFromRoom m userId roomId) := by
  unfold removeUserFromRoom
  cases hg : getA m roomId with
  | none => exact h
  | some members =>
      simp only [hg]
      by_cases hemp : (delA members userId).isEmpty = true
      · rw [if_pos hemp]
        intro e he
        exact h e (List.mem_of_mem_filter he)
      · rw [if_neg hemp]
        intro e he
        rcases mem_setA he with h1 | ⟨h1, _⟩
        · rw [h1]
          intro hc
          apply hemp
          rw [show delA members userId = ((roomId : String),
            delA members userId).2 from rfl, hc]
          rfl
        · exact h e h1

theorem roomsInv_removeUser (m : RoomMgr) (userId : String) :
    roomsInv (removeUser m userId) := by
  intro e he
  unfold removeUser at he
  have hp := (List.mem_filter.mp he).2
  intro hc
  rw [hc] at hp
  simp at hp

/-- One mutation of the session registry, as the relay invokes it:
`join-room` calls `addUserToRoom`, `leave-room` calls `removeUserFromRoom`,
disconnect calls `removeUser`. -/
inductive RegOp where
  | add (userId roomId : String) (rand now : Nat)
  | removeFromRoom (userId roomId : String)
  | removeAll (userId : String)

/-- Apply one registry mutation. -/
def applyRegOp (m : RoomMgr) : RegOp → RoomMgr
  | .add u r rand now => (addUserToRoom m u r rand now).1
  | .removeFromRoom u r => removeUserFromRoom m u r
  | .removeAll u => removeUser m u

/-- A reachable registry state: a mutation history applied to the fresh
empty `RoomManager`. -/
def runRM (ops : List RegOp) : RoomMgr :=
  ops.foldl applyRegOp []

theorem roomsInv_runRM (ops : List RegOp) : roomsInv (runRM ops) := by
  unfold runRM
  suffices hgen : ∀ (l : List RegOp) (m : RoomMgr), roomsInv m →
      roomsInv (l.foldl applyRegOp m) by
    exact hgen ops [] (by intro e he; cases he)
  intro l
  induction l with
  | nil =>
      intro m h
      exact h
  | cons op l ih =>
      intro m h
      refine ih _ ?_
      cases op with
      | add u r rand now => exact roomsInv_addUserToRoom h u r rand now
      | removeFromRoom u r => exact roomsInv_removeUserFromRoom h u r
      | removeAll u => exact roomsInv_removeUser m u

theorem getUsersInRoom_ne_nil_of_inv {m : RoomMgr} (h : roomsInv m)
    {r : String} (hr : r ∈ getAllRooms m) : getUsersInRoom m r ≠ [] := by
  rcases List.mem_map.mp hr with ⟨e, he, hek⟩
  have hhas : hasA m r = true := by
    apply List.any_eq_true.mpr
    exact ⟨e, he, by simp [hek]⟩
  rcases hasA_getA hhas with ⟨v, hv⟩
  rcases getA_mem hv with ⟨e', he', hev⟩
  unfold getUsersInRoom
  rw [hv]
  simp only [Option.getD_some]
  rw [← hev]
  exact h e' he'

/-- C10: `removePathFromRoom(roomId, pathId)` removes at most one entry —
the first (lowest-index) path whose id equals `pathId` — and leaves every
other path of the room, and their relative order, unchanged; when no path
in the room has that id, the drawing state is left entirely unchanged. -/
theorem c10_remove_frame (ds : DrawingState) (r : String) (st : RoomState)
    (pathId now : Nat) (hg : getA ds r = some st) :
    ((∀ a ∈ st.paths, a.id ≠ pathId) →
      removePathFromRoom ds r pathId now = ds)
    ∧ (∀ (pre post : List PathData) (x : PathData),
        st.paths = pre ++ x :: post → (∀ a ∈ pre, a.id ≠ pathId) →
        x.id = pathId →
        roomPaths (removePathFromRoom ds r pathId now) r = pre ++ post) := by
  constructor
  · intro hnone
    exact removePathFromRoom_notFound ds r pathId now hg hnone
  · intro pre post x hsplit hpre hx
    unfold roomPaths
    rw [removePathFromRoom_found ds r x pre post pathId now hg hsplit hpre hx]
    rfl

/-- Witness for C10: removing id 2 from a room holding ids [1, 2, 2] deletes
only the first id-2 path and keeps the rest in order; removing an absent id
leaves the state untouched. -/
theorem c10_remove_frame_witness :
    roomPaths (removePathFromRoom
      [("r", ⟨[⟨1, [], none, none⟩, ⟨2, [(1,1)], none, none⟩,
               ⟨2, [(2,2)], none, none⟩], 0⟩)] "r" 2 9) "r"
      = [⟨1, [], none, none⟩] ++ [⟨2, [(2,2)], none, none⟩]
    ∧ removePathFromRoom
        [("r", ⟨[⟨1, [], none, none⟩, ⟨2, [(1,1)], none, none⟩,
                 ⟨2, [(2,2)], none, none⟩], 0⟩)] "r" 5 9
      = [("r", ⟨[⟨1, [], none, none⟩, ⟨2, [(1,1)], none, none⟩,
                 ⟨2, [(2,2)], none, none⟩], 0⟩)] :=
  ⟨(c10_remove_frame
      [("r", ⟨[⟨1, [], none, none⟩, ⟨2, [(1,1)], none, none⟩,
               ⟨2, [(2,2)], none, none⟩], 0⟩)] "r"
      ⟨[⟨1, [], none, none⟩, ⟨2, [(1,1)], none, none⟩,
        ⟨2, [(2,2)], none, none⟩], 0⟩ 2 9 (by decide)).2
      [⟨1, [], none, none⟩] [⟨2, [(2,2)], none, none⟩]
      ⟨2, [(1,1)], none, none⟩ (by decide) (by decide) (by decide),
   (c10_remove_frame
      [("r", ⟨[⟨1, [], none, none⟩, ⟨2, [(1,1)], none, none⟩,
               ⟨2, [(2,2)], none, none⟩], 0⟩)] "r"
      ⟨[⟨1, [], none, none⟩, ⟨2, [(1,1)], none, none⟩,
        ⟨2, [(2,2)], none, none⟩], 0⟩ 5 9 (by decide)).1 (by decide)⟩

/-- C1 counterexample: undo of the only operation in a room physically
deletes its log entry — the log becomes empty, so nothing is retained that a
later restore could make visible again (no eviction was involved). -/
theorem c1_counterexample :
    roomPaths (addPathToRoom [] "r" ⟨1, [], none, none⟩ 0) "r"
      = [⟨1, [], none, none⟩]
    ∧ roomPaths (removePathFromRoom
        (addPathToRoom [] "r" ⟨1, [], none, none⟩ 0) "r" 1 1) "r" = []
    ∧ (⟨1, [], none, none⟩ : PathData) ∉ roomPaths (removePathFromRoom
        (addPathToRoom [] "r" ⟨1, [], none, none⟩ 0) "r" 1 1) "r" := by
  decide

/-- C1 (amended): undo physically removes the first log entry matching the
id rather than tombstoning it — afterwards no path with that id remains in
the room (`getPath` returns null), and the `redo-path` handler performs no
drawing-state mutation, so the server cannot make the removed operation
visible again. -/
theorem c1_undo_physically_deletes (ds : DrawingState) (r : String)
    (st : RoomState) (x : PathData) (pre post : List PathData)
    (pathId now now2 : Nat) (hg : getA ds r = some st)
    (hsplit : st.paths = pre ++ x :: post) (hx : x.id = pathId)
    (hpre : ∀ a ∈ pre, a.id ≠ pathId) (hpost : ∀ a ∈ post, a.id ≠ pathId) :
    roomPaths (removePathFromRoom ds r pathId now) r = pre ++ post
    ∧ (getPath (removePathFromRoom ds r pathId now) r pathId now2).2 = none
    ∧ ∀ (sockets : List Socket) (sender : Socket),
        (handleRedoPath sockets sender
          (removePathFromRoom ds r pathId now)).1
          = removePathFromRoom ds r pathId now := by
  have hfound :=
    removePathFromRoom_found ds r x pre post pathId now hg hsplit hpre hx
  refine ⟨?_, ?_, ?_⟩
  · unfold roomPaths
    rw [hfound]
    rfl
  · unfold getPath getRoomState
    simp only [hfound]
    apply List.find?_eq_none.mpr
    intro a ha
    rcases List.mem_append.mp ha with h1 | h1
    · simp [hpre a h1]
    · simp [hpost a h1]
  · intro sockets sender
    exact handleRedoPath_fst sockets sender _

/-- Witness for C1 (amended) on a concrete room [1, 2, 3], undoing id 2. -/
theorem c1_undo_physically_deletes_witness :
    roomPaths (removePathFromRoom [("r", ⟨[⟨1, [], none, none⟩,
        ⟨2, [], none, none⟩, ⟨3, [], none, none⟩], 0⟩)] "r" 2 7) "r"
      = [⟨1, [], none, none⟩] ++ [⟨3, [], none, none⟩]
    ∧ (getPath (removePathFromRoom [("r", ⟨[⟨1, [], none, none⟩,
        ⟨2, [], none, none⟩, ⟨3, [], none, none⟩], 0⟩)] "r" 2 7) "r" 2 8).2
      = none
    ∧ ∀ (sockets : List Socket) (sender : Socket),
        (handleRedoPath sockets sender
          (removePathFromRoom [("r", ⟨[⟨1, [], none, none⟩,
            ⟨2, [], none, none⟩, ⟨3, [], none, none⟩], 0⟩)] "r" 2 7)).1
        = removePathFromRoom [("r", ⟨[⟨1, [], none, none⟩,
            ⟨2, [], none, none⟩, ⟨3, [], none, none⟩], 0⟩)] "r" 2 7 :=
  c1_undo_physically_deletes
    [("r", ⟨[⟨1, [], none, none⟩, ⟨2, [], none, none⟩,
             ⟨3, [], none, none⟩], 0⟩)] "r"
    ⟨[⟨1, [], none, none⟩, ⟨2, [], none, none⟩, ⟨3, [], none, none⟩], 0⟩
    ⟨2, [], none, none⟩ [⟨1, [], none, none⟩] [⟨3, [], none, none⟩] 2 7 8
    (by decide) (by decide) (by decide) (by decide) (by decide)

/-- C2 counterexample: with one visible operation, undo followed immediately
by redo of the same id yields an empty visible snapshot, not the snapshot
from before the undo — the operation stays gone. -/
theorem c2_counterexample :
    roomPaths (addPathToRoom [] "r" ⟨1, [], none, none⟩ 0) "r"
      = [⟨1, [], none, none⟩]
    ∧ roomPaths ((handleRedoPath
        [socketOfSession ⟨"s1", "r"⟩, socketOfSession ⟨"s2", "r"⟩]
        (socketOfSession ⟨"s1", "r"⟩)
        (handleUndoPath
          [socketOfSession ⟨"s1", "r"⟩, socketOfSession ⟨"s2", "r"⟩]
          (socketOfSession ⟨"s1", "r"⟩)
          (addPathToRoom [] "r" ⟨1, [], none, none⟩ 0) 1 1).1).1) "r" = []
    ∧ roomPaths ((handleRedoPath
        [socketOfSession ⟨"s1", "r"⟩, socketOfSession ⟨"s2", "r"⟩]
        (socketOfSession ⟨"s1", "r"⟩)
        (handleUndoPath
          [socketOfSession ⟨"s1", "r"⟩, socketOfSession ⟨"s2", "r"⟩]
          (socketOfSession ⟨"s1", "r"⟩)
          (addPathToRoom [] "r" ⟨1, [], none, none⟩ 0) 1 1).1).1) "r"
      ≠ roomPaths (addPathToRoom [] "r" ⟨1, [], none, none⟩ 0) "r" := by
  decide

/-- C2 (amended): undo followed immediately by redo of the same id yields a
visible snapshot equal to the snapshot after the undo alone — the `redo-path`
handler never mutates the drawing state, so the undone operation remains
removed. -/
theorem c2_redo_after_undo (sockets : List Socket) (sender sender2 : Socket)
    (ds : DrawingState) (pathId now : Nat) (r : String) :
    roomPaths ((handleRedoPath sockets sender2
        (handleUndoPath sockets sender ds pathId now).1).1) r
      = roomPaths (handleUndoPath sockets sender ds pathId now).1 r := by
  rw [handleRedoPath_fst]

/-- C3 counterexample: appending to a room id with no log is not a no-op —
`addPathToRoom` lazily creates the room and stores the operation, which a
later joiner observes as prior drawing state. -/
theorem c3_counterexample :
    getA ([] : DrawingState) "r" = none
    ∧ addPathToRoom [] "r" ⟨1, [], none, none⟩ 0 ≠ ([] : DrawingState)
    ∧ roomPaths (addPathToRoom [] "r" ⟨1, [], none, none⟩ 0) "r"
        = [⟨1, [], none, none⟩] := by
  decide

/-- C3 (amended): appending to an unknown room does not throw and mutates no
other room, but it is not a no-op: the room's log is lazily created holding
exactly the appended operation; a merely-read unknown room presents an empty
log. -/
theorem c3_append_unknown_room (ds : DrawingState) (r : String)
    (p : PathData) (now : Nat) (hg : getA ds r = none) :
    roomPaths ds r = []
    ∧ (getRoomState ds r now).2.paths = []
    ∧ roomPaths (addPathToRoom ds r p now) r = [p]
    ∧ ∀ r', r' ≠ r → getA (addPathToRoom ds r p now) r' = getA ds r' := by
  have h0 : roomPaths ds r = [] := by
    unfold roomPaths
    rw [hg]
    rfl
  refine ⟨h0, ?_, ?_, ?_⟩
  · unfold getRoomState
    simp only [hg]
  · have hstep := roomPaths_addPathToRoom ds r p now (by rw [h0]; simp)
    rw [hstep, h0]
    rfl
  · intro r' hr'
    exact getA_addPathToRoom_ne ds p now hr'

/-- Witness for C3 (amended) on the empty drawing state. -/
theorem c3_append_unknown_room_witness :
    roomPaths ([] : DrawingState) "r" = []
    ∧ (getRoomState [] "r" 0).2.paths = []
    ∧ roomPaths (addPathToRoom [] "r" ⟨1, [], none, none⟩ 0) "r"
        = [⟨1, [], none, none⟩]
    ∧ ∀ r', r' ≠ "r" →
        getA (addPathToRoom [] "r" ⟨1, [], none, none⟩ 0) r'
          = getA ([] : DrawingState) r' :=
  c3_append_unknown_room [] "r" ⟨1, [], none, none⟩ 0 (by decide)

/-- The spec's draw-payload validity requirement ("must have either a
point-sequence or a shape descriptor with coordinates"), stated from the
spec's words: the source contains no counterpart — nothing in the
`draw-path` handler or `addPathToRoom` inspects the payload. -/
def malformedPayload (p : PathData) : Bool :=
  p.points.isEmpty && p.shape.isNone

/-- C4 counterexample: a malformed draw payload (no points, no shape) sent
by session "sa" in room "r" is still broadcast to the other member "sb" and
still appended to the room log — it is not dropped. -/
theorem c4_counterexample :
    malformedPayload ⟨7, [], none, none⟩ = true
    ∧ (handleDrawPath
        [socketOfSession ⟨"sa", "r"⟩, socketOfSession ⟨"sb", "r"⟩]
        (socketOfSession ⟨"sa", "r"⟩) [] ⟨7, [], none, none⟩ 5).2 = ["sb"]
    ∧ roomPaths (handleDrawPath
        [socketOfSession ⟨"sa", "r"⟩, socketOfSession ⟨"sb", "r"⟩]
        (socketOfSession ⟨"sa", "r"⟩) [] ⟨7, [], none, none⟩ 5).1 "r"
      = [⟨7, [], none, none⟩] := by
  decide

/-- C4 (amended): the `draw-path` handler performs no validation: every
payload, malformed included, is broadcast to the sender's room peers and
appended verbatim to the room log. -/
theorem c4_malformed_not_dropped (sockets : List Socket) (sender : Session)
    (ds : DrawingState) (p : PathData) (now : Nat)
    (hm : malformedPayload p = true)
    (hr : sender.currentRoom ≠ sender.sid)
    (hlen : (roomPaths ds sender.currentRoom).length < 1000) :
    (handleDrawPath sockets (socketOfSession sender) ds p now).2
      = emitToRoom sockets sender.sid sender.currentRoom
    ∧ roomPaths (handleDrawPath sockets (socketOfSession sender) ds p now).1
        sender.currentRoom = roomPaths ds sender.currentRoom ++ [p] := by
  rw [handleDrawPath_session sockets sender ds p now hr]
  exact ⟨rfl, roomPaths_addPathToRoom ds sender.currentRoom p now hlen⟩

/-- Witness for C4 (amended) with a concrete malformed payload. -/
theorem c4_malformed_not_dropped_witness :
    (handleDrawPath
        [socketOfSession ⟨"sa", "r"⟩, socketOfSession ⟨"sb", "r"⟩]
        (socketOfSession ⟨"sa", "r"⟩) [] ⟨7, [], none, none⟩ 5).2
      = emitToRoom
          [socketOfSession ⟨"sa", "r"⟩, socketOfSession ⟨"sb", "r"⟩] "sa" "r"
    ∧ roomPaths (handleDrawPath
        [socketOfSession ⟨"sa", "r"⟩, socketOfSession ⟨"sb", "r"⟩]
        (socketOfSession ⟨"sa", "r"⟩) [] ⟨7, [], none, none⟩ 5).1 "r"
      = roomPaths ([] : DrawingState) "r" ++ [⟨7, [], none, none⟩] :=
  c4_malformed_not_dropped
    [socketOfSession ⟨"sa", "r"⟩, socketOfSession ⟨"sb", "r"⟩]
    ⟨"sa", "r"⟩ [] ⟨7, [], none, none⟩ 5 (by decide) (by decide) (by decide)

/-- The spec's fan-out target set for a broadcast ("every other session
whose `currentRoom` equals the acting session's room"), stated over
sessions, to be compared with the relay's computed recipient lists. -/
def specFanoutTargets (sessions : List Session) (sender : Session) :
    List String :=
  (sessions.filter (fun t =>
    t.sid != sender.sid && sender.currentRoom == t.currentRoom)).map
    Session.sid

/-- C5: every broadcast of the relay — draw, undo, redo, cursor, and the
raw `socket.to(room)` fan-out used for join/leave/clear notices — reaches
exactly the other sessions whose current room equals the sender's room:
never the sender itself and never a session in a different room. -/
theorem c5_broadcast_scope (sessions : List Session) (sender : Session)
    (ds : DrawingState) (p : PathData) (pathId now : Nat)
    (hr : sender.currentRoom ≠ sender.sid)
    (hpriv : ∀ t ∈ sessions, t.sid ≠ sender.currentRoom) :
    (handleDrawPath (sessions.map socketOfSession) (socketOfSession sender)
        ds p now).2 = specFanoutTargets sessions sender
    ∧ (handleUndoPath (sessions.map socketOfSession) (socketOfSession sender)
        ds pathId now).2 = specFanoutTargets sessions sender
    ∧ (handleRedoPath (sessions.map socketOfSession)
        (socketOfSession sender) ds).2 = specFanoutTargets sessions sender
    ∧ handleCursorMove (sessions.map socketOfSession)
        (socketOfSession sender) = specFanoutTargets sessions sender
    ∧ emitToRoom (sessions.map socketOfSession) sender.sid sender.currentRoom
        = specFanoutTargets sessions sender
    ∧ ∀ x, x ∈ specFanoutTargets sessions sender ↔
        ∃ t ∈ sessions, t.sid = x ∧ t.sid ≠ sender.sid
          ∧ t.currentRoom = sender.currentRoom := by
  have hfan := emitToRoom_sessions sessions sender.sid sender.currentRoom
    (fun t ht => hpriv t ht)
  refine ⟨?_, ?_, ?_, ?_, ?_, ?_⟩
  · rw [handleDrawPath_session _ _ _ _ _ hr]
    rw [show (addPathToRoom ds sender.currentRoom p now,
      emitToRoom (sessions.map socketOfSession) sender.sid
        sender.currentRoom).2
      = emitToRoom (sessions.map socketOfSession) sender.sid
        sender.currentRoom from rfl, hfan]
    rfl
  · rw [handleUndoPath_session _ _ _ _ _ hr]
    rw [show (removePathFromRoom ds sender.currentRoom pathId now,
      emitToRoom (sessions.map socketOfSession) sender.sid
        sender.currentRoom).2
      = emitToRoom (sessions.map socketOfSession) sender.sid
        sender.currentRoom from rfl, hfan]
    rfl
  · rw [handleRedoPath_session _ _ _ hr]
    rw [show (ds, emitToRoom (sessions.map socketOfSession) sender.sid
        sender.currentRoom).2
      = emitToRoom (sessions.map socketOfSession) sender.sid
        sender.currentRoom from rfl, hfan]
    rfl
  · rw [handleCursorMove_session _ _ hr, hfan]
    rfl
  · rw [hfan]
    rfl
  · intro x
    unfold specFanoutTargets
    simp only [List.mem_map, List.mem_filter, Bool.and_eq_true, bne_iff_ne,
      beq_iff_eq]
    constructor
    · rintro ⟨t, ⟨ht, hne, hcur⟩, hx⟩
      exact ⟨t, ht, hx, hne, hcur.symm⟩
    · rintro ⟨t, ht, hx, hne, hcur⟩
      exact ⟨t, ⟨ht, hne, hcur.symm⟩, hx⟩

/-- Witness for C5: sessions a,b in room "x" and c in room "y"; a's draw
broadcast reaches exactly b. -/
theorem c5_broadcast_scope_witness :
    (handleDrawPath (List.map socketOfSession
        [⟨"a", "x"⟩, ⟨"b", "x"⟩, ⟨"c", "y"⟩])
      (socketOfSession ⟨"a", "x"⟩) [] ⟨1, [], none, none⟩ 0).2
      = specFanoutTargets [⟨"a", "x"⟩, ⟨"b", "x"⟩, ⟨"c", "y"⟩] ⟨"a", "x"⟩
    ∧ specFanoutTargets [⟨"a", "x"⟩, ⟨"b", "x"⟩, ⟨"c", "y"⟩] ⟨"a", "x"⟩
      = ["b"] :=
  ⟨(c5_broadcast_scope [⟨"a", "x"⟩, ⟨"b", "x"⟩, ⟨"c", "y"⟩] ⟨"a", "x"⟩
      [] ⟨1, [], none, none⟩ 0 0 (by decide) (by decide)).1,
   by decide⟩

/-- C6 counterexample: operations are stored verbatim — after appending one
operation carrying no `seq` field to a fresh room, the snapshot holds it
unchanged with `seq = none`: the log assigns no sequence number starting at
0. -/
theorem c6_counterexample :
    roomPaths (appendAll [] "r" [⟨5, [], none, none⟩] 0) "r"
      = [⟨5, [], none, none⟩]
    ∧ (∀ p ∈ roomPaths (appendAll [] "r" [⟨5, [], none, none⟩] 0) "r",
        p.seq = none)
    ∧ ¬ (∀ i, ∀ hi : i < (roomPaths (appendAll [] "r"
          [⟨5, [], none, none⟩] 0) "r").length,
        ((roomPaths (appendAll [] "r" [⟨5, [], none, none⟩] 0) "r").get
          ⟨i, hi⟩).seq = some i) := by
  decide

/-- C6 (amended): for every sequence of appends on a fresh room (within the
1000-entry cap), the visible snapshot is exactly the appended operations in
append order — each operation sits at the list position (0, 1, 2, …) of its
append, but the operations are stored verbatim and no `sequence` field is
written onto them. -/
theorem c6_append_order (ops : List PathData) (r : String) (now : Nat)
    (h : ops.length ≤ 1000) :
    roomPaths (appendAll [] r ops now) r = ops := by
  have h0 : roomPaths ([] : DrawingState) r = [] := rfl
  have hmain := roomPaths_appendAll ops [] r now
    (by rw [h0]; simp only [List.length_nil]; omega)
  rw [hmain, h0]
  rfl

/-- Witness for C6 (amended) with three concrete operations. -/
theorem c6_append_order_witness :
    roomPaths (appendAll [] "r" [⟨3, [], none, none⟩, ⟨1, [], none, none⟩,
      ⟨2, [], none, none⟩] 4) "r"
      = [⟨3, [], none, none⟩, ⟨1, [], none, none⟩, ⟨2, [], none, none⟩] :=
  c6_append_order [⟨3, [], none, none⟩, ⟨1, [], none, none⟩,
    ⟨2, [], none, none⟩] "r" 4 (by decide)

/-- C7: every reachable drawing state keeps each room log at ≤ 1000
operations; appending to a room exactly at the cap evicts precisely the
oldest entry; undo referencing an id absent from the room (e.g. evicted) is
a no-op with the look-up returning null, and the redo handler never mutates
the state. -/
theorem c7_capacity (ops : List DSOp) (ds : DrawingState) (r : String)
    (st : RoomState) (p : PathData) (pathId now now2 : Nat) :
    capInv (runDS ops)
    ∧ (getA ds r = some st → st.paths.length = 1000 →
        roomPaths (addPathToRoom ds r p now) r = st.paths.drop 1 ++ [p])
    ∧ (getA ds r = some st → (∀ a ∈ st.paths, a.id ≠ pathId) →
        removePathFromRoom ds r pathId now = ds
        ∧ (getPath ds r pathId now2).2 = none)
    ∧ ∀ (sockets : List Socket) (sender : Socket),
        (handleRedoPath sockets sender ds).1 = ds := by
  refine ⟨capInv_runDS ops, ?_, ?_, ?_⟩
  · intro hg hlen
    have hroom : roomPaths ds r = st.paths := by
      unfold roomPaths
      rw [hg]
      rfl
    have hmain := getA_addPathToRoom_same ds r p now
    rw [hroom] at hmain
    rw [if_pos (by
      simp only [List.length_append, List.length_cons, List.length_nil]
      omega)] at hmain
    unfold roomPaths
    rw [hmain]
    cases hcase : st.paths with
    | nil =>
        rw [hcase] at hlen
        simp at hlen
    | cons a t =>
        rfl
  · intro hg hnone
    refine ⟨removePathFromRoom_notFound ds r pathId now hg hnone, ?_⟩
    unfold getPath getRoomState
    simp only [hg]
    apply List.find?_eq_none.mpr
    intro a ha
    simp [hnone a ha]
  · intro sockets sender
    exact handleRedoPath_fst sockets sender ds

/-- A concrete room log filled exactly to the 1000-entry cap. -/
def fullRoomLog : List PathData :=
  (List.range 1000).map (fun i => ⟨i, [], none, none⟩)

set_option maxRecDepth 4000 in
/-- Witness for C7: appending to the full concrete room evicts its oldest
path; undoing an absent id on a small concrete room changes nothing. -/
theorem c7_capacity_witness :
    roomPaths (addPathToRoom [("r", ⟨fullRoomLog, 0⟩)] "r"
        ⟨2000, [], none, none⟩ 3) "r"
      = fullRoomLog.drop 1 ++ [⟨2000, [], none, none⟩]
    ∧ removePathFromRoom [("q", ⟨[⟨1, [], none, none⟩], 0⟩)] "q" 99 4
        = [("q", ⟨[⟨1, [], none, none⟩], 0⟩)] :=
  ⟨(c7_capacity [] [("r", ⟨fullRoomLog, 0⟩)] "r" ⟨fullRoomLog, 0⟩
      ⟨2000, [], none, none⟩ 99 3 4).2.1 rfl
      (by simp [fullRoomLog]),
   ((c7_capacity [] [("q", ⟨[⟨1, [], none, none⟩], 0⟩)] "q"
      ⟨[⟨1, [], none, none⟩], 0⟩ ⟨0, [], none, none⟩ 99 4 5).2.2.1 rfl
      (by decide)).1⟩

/-- C8 counterexample: re-joining the same room re-draws the user's color
from the palette — with oracle draws 0 then 1 the stored color changes from
"#FF6B6B" to "#4ECDC4" — even though membership is not duplicated (the room
still has exactly one entry for the user). -/
theorem c8_counterexample :
    (getA (getUsersInRoom (addUserToRoom [] "u" "r" 0 0).1 "r") "u").map
        User.color = some "#FF6B6B"
    ∧ (getA (getUsersInRoom (addUserToRoom
        (addUserToRoom [] "u" "r" 0 0).1 "u" "r" 1 1).1 "r") "u").map
        User.color = some "#4ECDC4"
    ∧ ("#FF6B6B" : String) ≠ "#4ECDC4"
    ∧ (getUsersInRoom (addUserToRoom
        (addUserToRoom [] "u" "r" 0 0).1 "u" "r" 1 1).1 "r").length = 1 := by
  decide

/-- C8 (amended): re-joining the same room never duplicates membership — the
member count and key set are unchanged, the entry is overwritten in place —
but the stored user record is rebuilt with a freshly drawn palette color
(and fresh display name and join timestamp), so the color is not stable
across re-joins. -/
theorem c8_rejoin (m : RoomMgr) (ms : Members) (w : User)
    (userId roomId : String) (rand now : Nat)
    (hg : getA m roomId = some ms) (hw : getA ms userId = some w) :
    (getUsersInRoom (addUserToRoom m userId roomId rand now).1 roomId).length
      = ms.length
    ∧ (getUsersInRoom (addUserToRoom m userId roomId rand now).1
        roomId).map Prod.fst = ms.map Prod.fst
    ∧ getA (getUsersInRoom (addUserToRoom m userId roomId rand now).1 roomId)
        userId = some ⟨userId, generateRandomColor rand,
          "User " ++ userId.take 4, now⟩ := by
  have hhasR : hasA m roomId = true := hasA_true_of_getA hg
  have hhasU : hasA ms userId = true := hasA_true_of_getA hw
  have hres : (addUserToRoom m userId roomId rand now).1
      = setA m roomId (setA ms userId ⟨userId, generateRandomColor rand,
          "User " ++ userId.take 4, now⟩) := by
    simp only [addUserToRoom, hhasR, if_true, hg, Option.getD_some]
  have hget : getUsersInRoom (addUserToRoom m userId roomId rand now).1
      roomId = setA ms userId ⟨userId, generateRandomColor rand,
          "User " ++ userId.take 4, now⟩ := by
    rw [hres]
    unfold getUsersInRoom
    rw [getA_setA_same]
    rfl
  rw [hget]
  exact ⟨length_setA_of_hasA _ hhasU, keys_setA_of_hasA _ hhasU,
    getA_setA_same _ _ _⟩

/-- Witness for C8 (amended): the user "u" re-joins room "r" with a new
oracle draw; member count and key set survive, entry freshly rebuilt. -/
theorem c8_rejoin_witness :
    (getUsersInRoom (addUserToRoom
        [("r", [("u", ⟨"u", "#FF6B6B", "User u", 0⟩)])] "u" "r" 1 5).1
        "r").length = [("u", (⟨"u", "#FF6B6B", "User u", 0⟩ : User))].length
    ∧ (getUsersInRoom (addUserToRoom
        [("r", [("u", ⟨"u", "#FF6B6B", "User u", 0⟩)])] "u" "r" 1 5).1
        "r").map Prod.fst
      = [("u", (⟨"u", "#FF6B6B", "User u", 0⟩ : User))].map Prod.fst
    ∧ getA (getUsersInRoom (addUserToRoom
        [("r", [("u", ⟨"u", "#FF6B6B", "User u", 0⟩)])] "u" "r" 1 5).1 "r")
        "u" = some ⟨"u", generateRandomColor 1, "User " ++ "u".take 4, 5⟩ :=
  c8_rejoin [("r", [("u", ⟨"u", "#FF6B6B", "User u", 0⟩)])]
    [("u", ⟨"u", "#FF6B6B", "User u", 0⟩)] ⟨"u", "#FF6B6B", "User u", 0⟩
    "u" "r" 1 5 (by decide) (by decide)

/-- C9: in every reachable session-registry state, every room listed by
`getAllRooms` has a non-empty member map — rooms are created only when a
member is added and are deleted as soon as their member map empties. -/
theorem c9_rooms_have_members (ops : List RegOp) (r : String)
    (hr : r ∈ getAllRooms (runRM ops)) :
    getUsersInRoom (runRM ops) r ≠ [] :=
  getUsersInRoom_ne_nil_of_inv (roomsInv_runRM ops) hr

/-- Witness for C9 after a concrete history: add two users to "x", remove
one; "x" is still listed and still has a member. -/
theorem c9_rooms_have_members_witness :
    ("x" ∈ getAllRooms (runRM [RegOp.add "u" "x" 0 0,
        RegOp.add "v" "x" 1 1, RegOp.removeFromRoom "u" "x"]))
    ∧ getUsersInRoom (runRM [RegOp.add "u" "x" 0 0,
        RegOp.add "v" "x" 1 1, RegOp.removeFromRoom "u" "x"]) "x" ≠ [] :=
  ⟨by decide,
   c9_rooms_have_members [RegOp.add "u" "x" 0 0, RegOp.add "v" "x" 1 1,
     RegOp.removeFromRoom "u" "x"] "x" (by decide)⟩
